import Mathlib

/-!
Verification development for the cflag command-line dispatcher.

The development shallowly embeds the Go sources of the repository:

* `FlagSet` models the external flag-parsing collaborator (pflag), restricted
  to the interface the dispatcher consumes: lenient parsing that tolerates
  unknown options, typed getters, and registration of boolean options with a
  long and a short form.  Strings are treated as sequences of characters.
* `Command` and its operations (`addCommand`, `cmdOp`, `lookup`,
  `markHidden`, `markDeprecated`, usage tables, `Command.parse`) embed the
  corresponding Go functions.  Pointer mutation is rendered as explicit state
  passing: every operation returns the updated tree.  Process exit on the
  help path is rendered as a `ParseExit` outcome value, and text written to
  the output sink is rendered as a list of emitted strings.
* The parse loop is written with an explicit fuel argument; the entry points
  supply `Command.csize` as fuel, which bounds the depth of the walk, so the
  zero-fuel branch is never reached from an entry point.
-/

namespace Cflag

/-!
## Flag-set collaborator

Model of the external pflag flag set, specified in the design document as a
collaborator contract: parsing runs in a lenient mode in which unknown flags
do not abort parsing (the UnknownFlags whitelist), boolean flags take no
argument, other flags take a value either after `=` inside the token or from
the following token, a bare `--` token ends flag parsing, and tokens that do
not look like flags are positional and are skipped by the flag set.
-/

structure Flag where
  longName : String
  shorthand : String
  value : String
  changed : Bool
  isBool : Bool
deriving Repr, DecidableEq

structure FlagSet where
  flags : List Flag
deriving Repr, DecidableEq

def FlagSet.lookupLong (fs : FlagSet) (name : String) : Option Flag :=
  fs.flags.find? (fun f => f.longName == name)

def FlagSet.lookupShort (fs : FlagSet) (sh : String) : Option Flag :=
  fs.flags.find? (fun f => f.shorthand == sh)

/-- `GetBool`: the value of a registered boolean flag, `none` when the flag
is absent or has a different type. -/
def FlagSet.getBool (fs : FlagSet) (name : String) : Option Bool :=
  match fs.lookupLong name with
  | some f => if f.isBool then some (f.value == "true") else none
  | none => none

/-- Decimal digits of an integer value string, with an accumulator. -/
def charsToNatAux : List Char → Nat → Option Nat
  | [], acc => some acc
  | c :: cs, acc => if c.isDigit then charsToNatAux cs (acc * 10 + (c.toNat - 48)) else none

/-- Read a decimal integer from a string, `none` when it is not numeric. -/
def strToInt? (s : String) : Option Int :=
  match s.data with
  | [] => none
  | '-' :: c :: cs => (charsToNatAux (c :: cs) 0).map (fun n => -(n : Int))
  | cs => (charsToNatAux cs 0).map (fun n => (n : Int))

/-- `GetInt`: the value of a registered non-boolean flag read as an integer,
`none` when the flag is absent, boolean, or its value is not numeric. -/
def FlagSet.getInt (fs : FlagSet) (name : String) : Option Int :=
  match fs.lookupLong name with
  | some f => if f.isBool then none else strToInt? f.value
  | none => none

/-- `BoolP`: register a boolean flag with a long and a one-letter short form,
default value false. -/
def FlagSet.boolP (fs : FlagSet) (long short : String) : FlagSet :=
  ⟨fs.flags ++ [⟨long, short, "false", false, true⟩]⟩

/-- Register an integer flag (long form only), mirroring `IntVar`. -/
def FlagSet.intFlag (fs : FlagSet) (long : String) (dflt : Int) : FlagSet :=
  ⟨fs.flags ++ [⟨long, "", toString dflt, false, false⟩]⟩

/-- Assign a value to the flag with the given long name and mark it changed. -/
def FlagSet.setLong (fs : FlagSet) (name value : String) : FlagSet :=
  ⟨fs.flags.map (fun f =>
    if f.longName == name then ⟨f.longName, f.shorthand, value, true, f.isBool⟩ else f)⟩

/-- Assign a value to the flag with the given shorthand and mark it changed. -/
def FlagSet.setShort (fs : FlagSet) (sh value : String) : FlagSet :=
  ⟨fs.flags.map (fun f =>
    if f.shorthand == sh then ⟨f.longName, f.shorthand, value, true, f.isBool⟩ else f)⟩

/-- The body of a token of the form `--name...`, `none` otherwise. -/
def longToken? (t : String) : Option (List Char) :=
  match t.data with
  | '-' :: '-' :: c :: rest => some (c :: rest)
  | _ => none

/-- The body of a token of the form `-x...` (not starting with `--`),
`none` otherwise. -/
def shortToken? (t : String) : Option (List Char) :=
  match t.data with
  | '-' :: c :: rest => if c = '-' then none else some (c :: rest)
  | _ => none

/-- Split a long-flag body at the first `=`, returning the name part and,
when an `=` is present, the value part. -/
def splitEq : List Char → List Char × Option (List Char)
  | [] => ([], none)
  | c :: rest =>
    if c = '=' then ([], some rest)
    else
      let p := splitEq rest
      (c :: p.1, p.2)

def startsWithDash (t : String) : Bool :=
  match t.data with
  | '-' :: _ => true
  | _ => false

/-- Lenient parse of a token list, mirroring pflag with the UnknownFlags
whitelist: known long flags take `=`-attached values, boolean flags take no
argument, other known flags consume the next token; an unknown flag is
skipped together with its value token when that token does not start with a
dash; `--` terminates flag parsing; remaining tokens are positional.
Parse errors (a missing value at the end of the stream) abort the walk, as
the dispatcher discards the error return of `Parse`.  The fuel argument is
the token count supplied by `FlagSet.parse`; every step consumes at least
one token, so the zero-fuel branch is never reached from the entry point. -/
def FlagSet.parseFuel (fs : FlagSet) : Nat → List String → FlagSet
  | 0, _ => fs
  | _, [] => fs
  | fuel + 1, tok :: rest =>
    if tok == "--" then fs
    else
      match longToken? tok with
      | some body =>
        let p := splitEq body
        let nm : String := ⟨p.1⟩
        match fs.lookupLong nm, p.2 with
        | some _, some v => (fs.setLong nm ⟨v⟩).parseFuel fuel rest
        | some f, none =>
          if f.isBool then (fs.setLong nm "true").parseFuel fuel rest
          else
            match rest with
            | v :: rest2 => (fs.setLong nm v).parseFuel fuel rest2
            | [] => fs
        | none, some _ => fs.parseFuel fuel rest
        | none, none =>
          match rest with
          | v :: rest2 =>
            if startsWithDash v then fs.parseFuel fuel rest else fs.parseFuel fuel rest2
          | [] => fs
      | none =>
        match shortToken? tok with
        | some body =>
          let sh : String := ⟨body⟩
          match fs.lookupShort sh with
          | some f =>
            if f.isBool then (fs.setShort sh "true").parseFuel fuel rest
            else
              match rest with
              | v :: rest2 => (fs.setShort sh v).parseFuel fuel rest2
              | [] => fs
          | none =>
            match rest with
            | v :: rest2 =>
              if startsWithDash v then fs.parseFuel fuel rest else fs.parseFuel fuel rest2
            | [] => fs
        | none => fs.parseFuel fuel rest

/-- `Parse` of the flag-set collaborator.  See `FlagSet.parseFuel`. -/
def FlagSet.parse (fs : FlagSet) (args : List String) : FlagSet :=
  fs.parseFuel args.length args

/-!
## Command nodes

`Command` embeds the Go struct of the same name: name, usage, description,
an optional flag set, the ordered list of subcommands, and the active,
hidden and deprecated markers.  The `output` writer and the `Usage` function
field are not carried (output is rendered as emitted strings, and the help
path records which node emitted usage).  The two extra fields
`recurseArguments` and `callback` are modelled from the spec: they belong to
the revision of the source that is absent from the sources at hand (only its
tests and the design document describe it); `callback` carries an opaque
identity for the registered callback function.
-/

inductive Command where
  | mk (name usage description : String) (flags : Option FlagSet)
      (commands : List Command) (active hidden deprecated : Bool)
      (recurseArguments : Bool) (callback : Option Nat)

def Command.name : Command → String
  | .mk n _ _ _ _ _ _ _ _ _ => n

def Command.usage : Command → String
  | .mk _ u _ _ _ _ _ _ _ _ => u

def Command.description : Command → String
  | .mk _ _ d _ _ _ _ _ _ _ => d

def Command.flags : Command → Option FlagSet
  | .mk _ _ _ f _ _ _ _ _ _ => f

def Command.commands : Command → List Command
  | .mk _ _ _ _ cs _ _ _ _ _ => cs

def Command.active : Command → Bool
  | .mk _ _ _ _ _ a _ _ _ _ => a

def Command.hiddenAttr : Command → Bool
  | .mk _ _ _ _ _ _ h _ _ _ => h

def Command.deprecatedAttr : Command → Bool
  | .mk _ _ _ _ _ _ _ d _ _ => d

def Command.recurseArguments : Command → Bool
  | .mk _ _ _ _ _ _ _ _ r _ => r

def Command.callback : Command → Option Nat
  | .mk _ _ _ _ _ _ _ _ _ cb => cb

def Command.setFlags : Command → Option FlagSet → Command
  | .mk n u d _ cs a h dp r cb, f => .mk n u d f cs a h dp r cb

def Command.setCommands : Command → List Command → Command
  | .mk n u d f _ a h dp r cb, cs => .mk n u d f cs a h dp r cb

def Command.setActive : Command → Bool → Command
  | .mk n u d f cs _ h dp r cb, a => .mk n u d f cs a h dp r cb

/-- `SetDescription`. -/
def Command.setDescription : Command → String → Command
  | .mk n u _ f cs a h dp r cb, d => .mk n u d f cs a h dp r cb

/-- `SetRecurseArguments` of the revision absent from the sources,
modelled from the spec. -/
def Command.setRecurse : Command → Bool → Command
  | .mk n u d f cs a h dp _ cb, r => .mk n u d f cs a h dp r cb

/-- `SetCallback` of the revision absent from the sources, modelled from
the spec; the callback function is carried as an opaque identity. -/
def Command.setCallback : Command → Option Nat → Command
  | .mk n u d f cs a h dp r _, cb => .mk n u d f cs a h dp r cb

/-- `MarkHidden`: the command keeps functioning but is not listed. -/
def Command.markHidden : Command → Command
  | .mk n u d f cs a _ dp r cb => .mk n u d f cs a true dp r cb

/-- `MarkDeprecated`: sets both the hidden and the deprecated marker. -/
def Command.markDeprecated : Command → Command
  | .mk n u d f cs a _ _ r cb => .mk n u d f cs a true true r cb

/-- `IsActive`. -/
def Command.isActive (c : Command) : Bool := c.active

/-- `IsHidden`. -/
def Command.isHidden (c : Command) : Bool := c.hiddenAttr

/-- `IsDeprecated`. -/
def Command.isDeprecated (c : Command) : Bool := c.deprecatedAttr

/-- `NewCommand`: name, usage and flag set as given, all other fields at
their zero values. -/
def newCommand (name usage : String) (flags : Option FlagSet) : Command :=
  .mk name usage "" flags [] false false false false none

/-- The zero value of the global register, `var command Command`. -/
def emptyRoot : Command := .mk "" "" "" none [] false false false false none

/-- The error taxonomy of registration, per the design document:
rejection of a nil node or an empty name, and rejection of a duplicate
sibling name. -/
inductive AddError where
  | invalidNode
  | duplicateName
deriving Repr, DecidableEq

/-- `Command.AddCommand`: the Go method takes a possibly nil pointer
(`none` here) and mutates the receiver only on success; the embedding
returns the updated receiver together with the error value. -/
def Command.addCommand (c : Command) (cmd? : Option Command) : Command × Option AddError :=
  match cmd? with
  | none => (c, some AddError.invalidNode)
  | some cmd =>
    if cmd.name = "" then (c, some AddError.invalidNode)
    else if c.commands.any (fun x => x.name == cmd.name) then (c, some AddError.duplicateName)
    else (c.setCommands (c.commands ++ [cmd]), none)

/-- `Command.Cmd`: build a node with `NewCommand` and register it; the Go
method returns the new node on success and nil with an error otherwise.
The embedding returns the updated receiver and the returned node. -/
def Command.cmdOp (c : Command) (name usage : String) (flags : Option FlagSet) :
    Command × Option Command :=
  match c.addCommand (some (newCommand name usage flags)) with
  | (c2, none) => (c2, some (newCommand name usage flags))
  | (_, some _) => (c, none)

/-- The package-level `AddCommand` of the source: its body is
`command.AddCommand(command)`, in which `command` is the PARAMETER (it
shadows the global register of the same name), so the method runs with the
argument as its own receiver.  The embedding returns the global register
after the call, the argument node after the call, and the error value. -/
def pkgAddCommand (g : Command) (cmd? : Option Command) :
    Command × Option Command × Option AddError :=
  match cmd? with
  | none => (g, none, some AddError.invalidNode)
  | some cmd =>
    let r := cmd.addCommand (some cmd)
    (g, some r.1, r.2)

/-- `Command.Lookup`: the direct child with the given non-empty name. -/
def Command.lookup (c : Command) (name : String) : Option Command :=
  if name = "" then none
  else c.commands.find? (fun cmd => cmd.name == name)

/-- `Command.Active`: activation state of the direct child with the given
name, false when it is absent. -/
def Command.activeByName (c : Command) (name : String) : Bool :=
  match c.lookup name with
  | some cmd => cmd.isActive
  | none => false

/-!
## The parse walk of the source

`Command.Parse` checks the node name against the first token, marks the node
active, strips the first token, and then runs a loop that at each level
scans the remaining stream for the first token equal to the name of a direct
subcommand, parses the tokens before the match through the flag set of the
current node (registering the help option when missing), exits on help,
warns on deprecation, and continues with the found subcommand on the stream
from the match onward.  The loop is rendered as fuel recursion on
`Command.csize`, which bounds the number of descents.
-/

mutual
/-- One plus the node count of the subtree: a strict bound on the depth. -/
def Command.csize : Command → Nat
  | .mk _ _ _ _ cs _ _ _ _ _ => 1 + csizeList cs
def csizeList : List Command → Nat
  | [] => 0
  | c :: cs => Command.csize c + csizeList cs
end

/-- `slices.IndexFunc` over subcommands: the first child carrying the given
name, together with its index. -/
def firstMatch : List Command → String → Option (Nat × Command)
  | [], _ => none
  | c :: cs, a =>
    if c.name == a then some (0, c)
    else (firstMatch cs a).map (fun p => (p.1 + 1, p.2))

/-- The scan of the parse loop: the first token of the stream that equals
the name of some direct subcommand, returned as the token index, the child
index and the child. -/
def findSub (cmds : List Command) : List String → Option (Nat × Nat × Command)
  | [] => none
  | a :: rest =>
    match firstMatch cmds a with
    | some (j, c) => some (0, j, c)
    | none => (findSub cmds rest).map (fun p => (p.1 + 1, p.2))

/-- The tokens handled by the current node: the stream up to the first
subcommand match, or the whole stream when no subcommand name occurs. -/
def beforeSegment (cmds : List Command) (args : List String) : List String :=
  match findSub cmds args with
  | some (iArg, _, _) => args.take iArg
  | none => args

/-- The outcome of a parse pass: normal completion, or the process exit
taken on the help path (`os.Exit(0)` after printing usage for the node with
the recorded name and usage). -/
inductive ParseExit where
  | none
  | help (name usage : String) (code : Nat)
deriving Repr, DecidableEq

/-- The warning written to the output sink for a deprecated command. -/
def deprecationWarning (name : String) : String :=
  "Command \"" ++ name ++ "\" is deprecated!"

/-- Register the boolean help option, long form `help` and short form `h`,
when the flag set does not already recognize it. -/
def ensureHelp (fs : FlagSet) : FlagSet :=
  if (fs.getBool "help").isSome then fs else fs.boolP "help" "h"

/-- Result of the per-node flag handling. -/
structure StepRes where
  flags : Option FlagSet
  exit : ParseExit
  warnings : List String
deriving Repr, DecidableEq

/-- The per-node flag handling of the loop: nothing happens when the node
has no flag set or the before segment is empty; otherwise the help option is
registered when missing, the segment is parsed, a set help flag exits with
status 0 after emitting usage for the current node, and otherwise a
deprecated node emits its warning. -/
def nodeFlagStep (c : Command) (before : List String) : StepRes :=
  match c.flags with
  | none => ⟨none, ParseExit.none, []⟩
  | some fs =>
    if before.isEmpty then ⟨some fs, ParseExit.none, []⟩
    else
      let fs2 := (ensureHelp fs).parse before
      if fs2.getBool "help" = some true then
        ⟨some fs2, ParseExit.help c.name c.usage 0, []⟩
      else
        ⟨some fs2, ParseExit.none,
          if c.deprecatedAttr then [deprecationWarning c.name] else []⟩

/-- Result of the loop: the updated subtree, the exit outcome, and the
warnings emitted to the output sink. -/
structure LoopRes where
  tree : Command
  exit : ParseExit
  warnings : List String

/-- The parse loop of the source: scan for a subcommand boundary, handle the
flags of the current node on the segment before it, then mark the found
subcommand active and continue on the stream from the match onward (the
subcommand name is part of that stream and is not stripped by the loop).
The zero-fuel branch is unreachable from `Command.parse`, whose fuel bounds
the depth of the walk. -/
def parseLoopFuel : Nat → Command → List String → LoopRes
  | 0, c, _ => ⟨c, ParseExit.none, []⟩
  | fuel + 1, c, args =>
    match findSub c.commands args with
    | some (iArg, iCmd, child) =>
      let s := nodeFlagStep c (args.take iArg)
      match s.exit with
      | ParseExit.help n u k => ⟨c.setFlags s.flags, ParseExit.help n u k, s.warnings⟩
      | ParseExit.none =>
        let r := parseLoopFuel fuel (child.setActive true) (args.drop iArg)
        ⟨(c.setFlags s.flags).setCommands (c.commands.set iCmd r.tree),
          r.exit, s.warnings ++ r.warnings⟩
    | none =>
      let s := nodeFlagStep c args
      ⟨c.setFlags s.flags, s.exit, s.warnings⟩

/-- `Command.Parse`: empty streams return at once; a named node whose name
differs from the first token returns unchanged; otherwise the node is marked
active, the first token is consumed, and the loop runs. -/
def Command.parse (c : Command) (arguments : List String) : LoopRes :=
  match arguments with
  | [] => ⟨c, ParseExit.none, []⟩
  | a0 :: rest =>
    if c.name ≠ "" ∧ c.name ≠ a0 then ⟨c, ParseExit.none, []⟩
    else parseLoopFuel c.csize (c.setActive true) rest

/-!
## The resolver of the revision absent from the sources

The tests of the repository exercise `SetRecurseArguments`, `SetCallback`
and callback dispatch, whose implementation is not among the sources at
hand.  The resolver below is modelled from the spec, following the eleven
steps of its parse algorithm and its callback dispatch section.
-/

/-- Result of the spec-modelled resolver: the updated subtree, the updated
flag sets of the ancestors (nearest first, same length as received), the
exit outcome, the emitted warnings, and the parse chain from this node down
to the deepest active node. -/
structure SpecRes where
  tree : Command
  anc : List FlagSet
  exit : ParseExit
  warnings : List String
  chain : List Command

/-- Modelled from the spec: the parse algorithm of the revision absent from
the sources (steps 1 to 11 of its resolver section).  Per level: stop when a
non-empty name does not equal the first remaining token; mark active and
consume the name token when non-empty; scan for the first token equal to the
name of a direct child; lazily create an empty flag set when absent and
register the help option; parse the before segment leniently; exit with
status 0 on a set help flag; when recursive arguments are enabled and the
before segment is non-empty, replay the identical segment through every
ancestor flag set, nearest ancestor first, with a plain parse that does not
re-trigger help or deprecation handling; emit the deprecation notice; append
the node to the parse chain; descend into the found child with the stream
from the match onward (the child consumes its own name token). -/
def specResolveFuel : Nat → Command → List String → List FlagSet → SpecRes
  | 0, c, _, anc => ⟨c, anc, ParseExit.none, [], []⟩
  | fuel + 1, c, args0, anc =>
    if c.name ≠ "" ∧ args0.head? ≠ some c.name then ⟨c, anc, ParseExit.none, [], []⟩
    else
      let c1 := c.setActive true
      let args := if c.name = "" then args0 else args0.tail
      let sub := findSub c1.commands args
      let before := match sub with
        | some (iArg, _, _) => args.take iArg
        | none => args
      let fs0 := c1.flags.getD (FlagSet.mk [])
      let fs2 := (ensureHelp fs0).parse before
      if fs2.getBool "help" = some true then
        ⟨c1.setFlags (some fs2), anc, ParseExit.help c1.name c1.usage 0, [], []⟩
      else
        let anc2 :=
          if c1.recurseArguments ∧ before ≠ [] then anc.map (fun a => a.parse before) else anc
        let warns := if c1.deprecatedAttr then [deprecationWarning c1.name] else []
        match sub with
        | some (iArg, iCmd, child) =>
          let r := specResolveFuel fuel child (args.drop iArg) (fs2 :: anc2)
          match r.anc with
          | fsSelf :: ancRest =>
            let cDone := (c1.setFlags (some fsSelf)).setCommands (c1.commands.set iCmd r.tree)
            ⟨cDone, ancRest, r.exit, warns ++ r.warnings, cDone :: r.chain⟩
          | [] =>
            let cDone := (c1.setFlags (some fs2)).setCommands (c1.commands.set iCmd r.tree)
            ⟨cDone, anc2, r.exit, warns ++ r.warnings, cDone :: r.chain⟩
        | none =>
          let cDone := c1.setFlags (some fs2)
          ⟨cDone, anc2, ParseExit.none, warns, [cDone]⟩

/-- Modelled from the spec: the entry point of the resolver.  A root with an
empty name strips the leading program-path token; a named node checks and
consumes its own name inside the resolver. -/
def specParse (c : Command) (argv : List String) : SpecRes :=
  if c.name = "" then
    match argv with
    | [] => ⟨c, [], ParseExit.none, [], []⟩
    | _ :: rest => specResolveFuel c.csize c rest []
  else specResolveFuel c.csize c argv []

/-- Modelled from the spec: callback dispatch.  Walk the chain from deepest
to shallowest; the first node with its own callback is invoked, receiving
the deepest active node and the flag set of that deepest node; otherwise the
global fallback callback is invoked the same way; otherwise nothing is
invoked.  The result records the single invocation, so a callback runs at
most once per pass. -/
def dispatch (chain : List Command) (globalCb : Option Nat) :
    Option (Nat × Command × Option FlagSet) :=
  match chain.getLast? with
  | none => none
  | some deepest =>
    match chain.reverse.find? (fun n => n.callback.isSome) with
    | some n => n.callback.map (fun cb => (cb, deepest, deepest.flags))
    | none => globalCb.map (fun cb => (cb, deepest, deepest.flags))

/-- Result of a full pass of the spec-modelled revision. -/
structure RunRes where
  tree : Command
  exit : ParseExit
  warnings : List String
  chain : List Command
  invoked : Option (Nat × Command × Option FlagSet)

/-- Modelled from the spec: a full parse pass followed by callback dispatch.
The help exit terminates the process, so no callback is dispatched then. -/
def specRun (c : Command) (argv : List String) (globalCb : Option Nat) : RunRes :=
  let r := specParse c argv
  ⟨r.tree, r.exit, r.warnings, r.chain,
    if r.exit = ParseExit.none then dispatch r.chain globalCb else none⟩

/-!
## Usage tables

`CommandUsagesWrapped` builds the table of visible subcommands, one aligned
line per non-hidden child, the usage text wrapped to the given column count.
The text-wrapping helpers embed the `wrap` and `wrapN` functions of the
source (copies of the pflag ones); strings are indexed by characters here.
-/

/-- The gap between the start of the line and the command name. -/
def commandGapLen : Nat := 2

/-- The minimum gap between the command name and the command usage. -/
def commandUsageGapLen : Nat := 3

def spaces (n : Nat) : String := ⟨List.replicate n ' '⟩

/-- `strings.Replace(s, "\n", repl, -1)`: every newline replaced. -/
def replaceNLWith (s repl : String) : String :=
  ⟨s.data.flatMap (fun ch => if ch = '\n' then repl.data else [ch])⟩

/-- `strings.LastIndexAny`: the last position whose character satisfies the
predicate, `none` when there is none (Go returns -1; the caller treats
position 0 and absence alike). -/
def lastIndexAnyC : List Char → (Char → Bool) → Option Nat
  | [], _ => none
  | c :: cs, p =>
    match lastIndexAnyC cs p with
    | some k => some (k + 1)
    | none => if p c then some 0 else none

/-- `wrapN`: split off an initial substring of at most `i` characters (going
up to `slop` over when that reaches the end), breaking at the last
whitespace, preferring an embedded newline. -/
def wrapN (i slop : Nat) (s : List Char) : List Char × List Char :=
  if i + slop > s.length then (s, [])
  else
    match lastIndexAnyC (s.take i) (fun c => c = ' ' ∨ c = '\t' ∨ c = '\n') with
    | none => (s, [])
    | some w =>
      if w = 0 then (s, [])
      else
        match lastIndexAnyC (s.take i) (fun c => c = '\n') with
        | some nl =>
          if 0 < nl ∧ nl < w then (s.take nl, s.drop (nl + 1))
          else (s.take w, s.drop (w + 1))
        | none => (s.take w, s.drop (w + 1))

/-- The trailing loop of `wrap`; each round consumes at least one character
of the remainder, so the character count plus one is sufficient fuel. -/
def wrapLoopFuel : Nat → Nat → Nat → Nat → List Char → String → String
  | 0, _, _, _, _, r => r
  | fuel + 1, wrapW, slop, ind, s, r =>
    if s.isEmpty then r
    else
      let p := wrapN wrapW slop s
      wrapLoopFuel fuel wrapW slop ind p.2
        (r ++ "\n" ++ spaces ind ++ replaceNLWith ⟨p.1⟩ ("\n" ++ spaces ind))

/-- `wrap`: wrap `s` to width `w` with leading indent `i`; `w = 0` performs
no wrapping and only indents continuation lines. -/
def wrapStr (i w : Nat) (s : String) : String :=
  if w = 0 then replaceNLWith s ("\n" ++ spaces i)
  else
    let wrap1 : Int := (w : Int) - (i : Int)
    let i2 : Nat := if wrap1 < 24 then 16 else i
    let r0 : String := if wrap1 < 24 then "\n" ++ spaces 16 else ""
    let wrap2 : Int := if wrap1 < 24 then (w : Int) - 16 else wrap1
    if wrap2 < 24 then replaceNLWith s r0
    else
      let wrapW := (wrap2 - 5).toNat
      let p := wrapN wrapW 5 s.data
      let r1 := r0 ++ replaceNLWith ⟨p.1⟩ ("\n" ++ spaces i2)
      wrapLoopFuel (p.2.length + 1) wrapW 5 i2 p.2 r1

/-- `filterSlice` over subcommands with the non-hidden test. -/
def visibleCommands (c : Command) : List Command :=
  c.commands.filter (fun x => !x.hiddenAttr)

/-- The running maximum of the name lengths (Go measures bytes, the model
characters). -/
def maxNameLen (cmds : List Command) : Nat :=
  cmds.foldl (fun m c => max m c.name.length) 0

/-- `CommandUsagesWrapped`: empty for a node without subcommands; otherwise
one line per visible (non-hidden) child, name-aligned, usage wrapped to
`cols` columns (0 for no wrapping). -/
def commandUsagesWrapped (c : Command) (cols : Nat) : String :=
  if c.commands.isEmpty then ""
  else
    let visible := visibleCommands c
    let maxLen := maxNameLen visible
    let fullUsageGapLen := commandGapLen + maxLen + commandUsageGapLen
    String.join (visible.map (fun cmd =>
      spaces commandGapLen ++ cmd.name
        ++ spaces (maxLen - cmd.name.length + commandUsageGapLen)
        ++ wrapStr fullUsageGapLen cols cmd.usage ++ "\n"))

/-!
## Tree shape

The shape of a command tree: name, usage, description and the ordered
children, with the mutable parse state (flag values, activation) erased.
Parsing is expected to preserve the shape.
-/

inductive CommandShape where
  | mk (name usage description : String) (children : List CommandShape)

mutual
def Command.shape : Command → CommandShape
  | .mk n u d _ cs _ _ _ _ _ => .mk n u d (shapeList cs)
def shapeList : List Command → List CommandShape
  | [] => []
  | c :: cs => Command.shape c :: shapeList cs
end

/-!
## Concrete fixtures

Flag sets and trees used to evaluate the development on the concrete
scenarios of the test suite and the design document.
-/

/-- Root flag set of the recursion scenario: integer flag `test0`. -/
def fsRootC2 : FlagSet := (FlagSet.mk []).intFlag "test0" 0

/-- Flag set of command `foo`: integer flag `test1`, default 1. -/
def fsFooC2 : FlagSet := (FlagSet.mk []).intFlag "test1" 1

/-- Flag set of command `foo/bar`: integer flag `test2`, default 2. -/
def fsBarC2 : FlagSet := (FlagSet.mk []).intFlag "test2" 2

/-- Command `foo/bar` with recursive arguments enabled. -/
def barC2 : Command := (newCommand "bar" "Bar command." (some fsBarC2)).setRecurse true

/-- Command `foo` with subcommand `bar`. -/
def fooC2 : Command := (newCommand "foo" "Foo command." (some fsFooC2)).setCommands [barC2]

/-- Root of the recursion scenario. -/
def rootC2 : Command := (emptyRoot.setFlags (some fsRootC2)).setCommands [fooC2]

/-- The command `foo` with subcommand `bar` and recursive arguments enabled
on `foo` itself: an internal node of the recursion scenario. -/
def fooC2R : Command := fooC2.setRecurse true

/-- The token stream of the recursion scenario, with a leading program
path. -/
def argvC2 : List String :=
  ["app", "foo", "bar", "--test0", "10", "--test1", "11", "--test2", "12"]

/-- A grandchild carrying the same name as its parent command `foo`. -/
def innerC1 : Command := newCommand "foo" "inner" none

/-- A command `foo` whose single subcommand is also named `foo`. -/
def fooC1 : Command := (newCommand "foo" "outer" none).setCommands [innerC1]

/-- Root of the name-stripping scenario. -/
def rootC1 : Command := emptyRoot.setCommands [fooC1]

/-- A command `foo` with a registered callback (identity 7). -/
def fooC3 : Command := (newCommand "foo" "Foo command." none).setCallback (some 7)

/-- Root of the callback scenario. -/
def rootC3 : Command := emptyRoot.setCommands [fooC3]

/-- A node with a flag set holding no flags. -/
def nodeC4 : Command := (newCommand "node" "Node usage." (some (FlagSet.mk [])))

/-- A node created with a nil flag set. -/
def nodeC5 : Command := emptyRoot

/-- A subcommand named `sub` for the split scenario. -/
def subW : Command := newCommand "sub" "Sub command." none

/-- A node with an empty flag set and the subcommand `sub`. -/
def nodeW : Command := (emptyRoot.setFlags (some (FlagSet.mk []))).setCommands [subW]

/-- A parent with one visible and one deprecated child. -/
def visibleChildC10 : Command := newCommand "a" "A command." none

/-- The deprecated child of the usage-table scenario. -/
def deprChildC10 : Command := (newCommand "w" "W command." none).markDeprecated

/-- Parent of the usage-table scenario. -/
def parentC10 : Command := emptyRoot.setCommands [visibleChildC10, deprChildC10]

/-!
## Helper lemmas
-/

theorem commands_setCommands (c : Command) (l : List Command) :
    (c.setCommands l).commands = l := by
  cases c; rfl

theorem flags_setFlags (c : Command) (f : Option FlagSet) :
    (c.setFlags f).flags = f := by
  cases c; rfl

theorem commands_setFlags (c : Command) (f : Option FlagSet) :
    (c.setFlags f).commands = c.commands := by
  cases c; rfl

theorem flags_setCommands (c : Command) (l : List Command) :
    (c.setCommands l).flags = c.flags := by
  cases c; rfl

theorem hiddenAttr_markDeprecated (c : Command) : (c.markDeprecated).hiddenAttr = true := by
  cases c; rfl

theorem deprecatedAttr_markDeprecated (c : Command) :
    (c.markDeprecated).deprecatedAttr = true := by
  cases c; rfl

theorem csize_setActive (c : Command) (b : Bool) : (c.setActive b).csize = c.csize := by
  cases c; rfl

theorem name_setActive (c : Command) (b : Bool) : (c.setActive b).name = c.name := by
  cases c; rfl

theorem flags_setActive (c : Command) (b : Bool) : (c.setActive b).flags = c.flags := by
  cases c; rfl

theorem commands_setActive (c : Command) (b : Bool) :
    (c.setActive b).commands = c.commands := by
  cases c; rfl

theorem deprecatedAttr_setActive (c : Command) (b : Bool) :
    (c.setActive b).deprecatedAttr = c.deprecatedAttr := by
  cases c; rfl

theorem recurseArguments_setActive (c : Command) (b : Bool) :
    (c.setActive b).recurseArguments = c.recurseArguments := by
  cases c; rfl

theorem usage_setActive (c : Command) (b : Bool) : (c.setActive b).usage = c.usage := by
  cases c; rfl

theorem findSub_nil (args : List String) : findSub ([] : List Command) args = none := by
  induction args with
  | nil => rfl
  | cons a rest ih =>
    unfold findSub
    rw [show firstMatch ([] : List Command) a = none from rfl, ih]
    rfl

/-!
## Claim C6 — registration errors
-/

/-- C6: `AddCommand` with a nil node or an empty name fails with the
invalid-node error and leaves the children unchanged; a duplicate sibling
name fails with the duplicate-name error and leaves the children unchanged;
otherwise the node is appended and the call succeeds; and `Cmd` returns the
newly created node exactly when the underlying `AddCommand` succeeded, and
nothing otherwise. -/
theorem addCommand_spec :
    (∀ c : Command, c.addCommand none = (c, some AddError.invalidNode))
    ∧ (∀ c cmd : Command, cmd.name = "" →
        c.addCommand (some cmd) = (c, some AddError.invalidNode))
    ∧ (∀ c cmd : Command, cmd.name ≠ "" → (∃ x ∈ c.commands, x.name = cmd.name) →
        c.addCommand (some cmd) = (c, some AddError.duplicateName))
    ∧ (∀ c cmd : Command, cmd.name ≠ "" → (∀ x ∈ c.commands, x.name ≠ cmd.name) →
        c.addCommand (some cmd) = (c.setCommands (c.commands ++ [cmd]), none))
    ∧ (∀ (c : Command) (n u : String) (f : Option FlagSet),
        ((c.addCommand (some (newCommand n u f))).2 = none →
          c.cmdOp n u f =
            ((c.addCommand (some (newCommand n u f))).1, some (newCommand n u f)))
        ∧ ((c.addCommand (some (newCommand n u f))).2 ≠ none →
          c.cmdOp n u f = (c, none))) := by
  refine ⟨fun c => rfl, ?_, ?_, ?_, ?_⟩
  · intro c cmd h
    simp [Command.addCommand, h]
  · intro c cmd h ⟨x, hx, hname⟩
    have hany : c.commands.any (fun x => x.name == cmd.name) = true :=
      List.any_eq_true.mpr ⟨x, hx, by simp [hname]⟩
    simp [Command.addCommand, h, hany]
  · intro c cmd h hall
    have hany : c.commands.any (fun x => x.name == cmd.name) = false := by
      rw [List.any_eq_false]
      intro x hx
      simp [hall x hx]
    simp [Command.addCommand, h, hany]
  · intro c n u f
    constructor
    · intro h
      unfold Command.cmdOp
      rcases e : c.addCommand (some (newCommand n u f)) with ⟨c2, err⟩
      rw [e] at h
      simp at h
      subst h
      simp [e]
    · intro h
      unfold Command.cmdOp
      rcases e : c.addCommand (some (newCommand n u f)) with ⟨c2, err⟩
      rw [e] at h
      simp at h
      rcases err with _ | err
      · simp at h
      · simp

/-- Witness for C6 at concrete inputs: adding a second child named `foo`
under a parent that already has one fails with the duplicate-name error and
leaves the parent unchanged. -/
theorem addCommand_spec_witness :
    (newCommand "foo" "x" none).name ≠ ""
    ∧ (∃ x ∈ (emptyRoot.setCommands [newCommand "foo" "" none]).commands,
        x.name = (newCommand "foo" "x" none).name)
    ∧ (emptyRoot.setCommands [newCommand "foo" "" none]).addCommand
        (some (newCommand "foo" "x" none))
      = (emptyRoot.setCommands [newCommand "foo" "" none], some AddError.duplicateName) := by
  refine ⟨by simp [newCommand, Command.name], ⟨newCommand "foo" "" none, by simp [emptyRoot, newCommand, Command.setCommands, Command.commands, Command.name]⟩, ?_⟩
  exact addCommand_spec.2.2.1 _ _ (by simp [newCommand, Command.name])
    ⟨newCommand "foo" "" none, by simp [emptyRoot, newCommand, Command.setCommands, Command.commands, Command.name]⟩

/-!
## Claim C7 — the name gate of Parse
-/

/-- C7: a node with a non-empty name differing from the first token returns
at once, fully unchanged, parsing nothing; with an empty name or a matching
first token the node is marked active and the first token is consumed before
the loop runs. -/
theorem parse_name_gate :
    (∀ (c : Command) (a0 : String) (rest : List String), c.name ≠ "" → c.name ≠ a0 →
        c.parse (a0 :: rest) = ⟨c, ParseExit.none, []⟩)
    ∧ (∀ (c : Command) (a0 : String) (rest : List String), c.name = "" ∨ c.name = a0 →
        c.parse (a0 :: rest) = parseLoopFuel c.csize (c.setActive true) rest) := by
  constructor
  · intro c a0 rest h1 h2
    simp [Command.parse, h1, h2]
  · intro c a0 rest h
    rcases h with h | h
    · simp [Command.parse, h]
    · simp [Command.parse, h]

/-- Witness for C7: a standalone node named `test` ignores a stream starting
with an unrelated token, and consumes its own name when it matches. -/
theorem parse_name_gate_witness :
    (newCommand "test" "" none).name ≠ ""
    ∧ (newCommand "test" "" none).name ≠ "other"
    ∧ (newCommand "test" "" none).parse ["other", "--x"]
        = ⟨newCommand "test" "" none, ParseExit.none, []⟩ := by
  refine ⟨by simp [newCommand, Command.name], by simp [newCommand, Command.name], ?_⟩
  exact parse_name_gate.1 _ _ _ (by simp [newCommand, Command.name])
    (by simp [newCommand, Command.name])

/-!
## Claim C8 — the package-level AddCommand registers a node under itself
-/

/-- C8 (failing input): the package-level `AddCommand` applied to a fresh
node named `foo` does not touch the global register and instead appends the
node to its own children list: the node becomes its own child, and the
register never learns about it. -/
theorem pkgAddCommand_self_cycle :
    pkgAddCommand emptyRoot (some (newCommand "foo" "" none))
      = (emptyRoot,
          some ((newCommand "foo" "" none).setCommands [newCommand "foo" "" none]),
          none) := by
  rfl

/-!
## Claim C10 — MarkDeprecated also hides
-/

/-- C10: `MarkDeprecated` marks the node hidden as well: afterwards both
`IsDeprecated` and `IsHidden` hold, a deprecated node never occurs among the
visible children, and the usage table of any parent equals the table with
the deprecated child removed. -/
theorem markDeprecated_spec :
    (∀ c : Command, (c.markDeprecated).isDeprecated = true ∧ (c.markDeprecated).isHidden = true)
    ∧ (∀ c p : Command, c.markDeprecated ∉ visibleCommands p)
    ∧ (∀ (c p : Command) (pre post : List Command) (cols : Nat),
        p.commands = pre ++ c.markDeprecated :: post →
        commandUsagesWrapped p cols = commandUsagesWrapped (p.setCommands (pre ++ post)) cols) := by
  refine ⟨fun c => ⟨deprecatedAttr_markDeprecated c, hiddenAttr_markDeprecated c⟩, ?_, ?_⟩
  · intro c p h
    have h2 := (List.mem_filter.mp h).2
    rw [hiddenAttr_markDeprecated] at h2
    simp at h2
  · intro c p pre post cols hp
    have hfil : List.filter (fun x => !x.hiddenAttr) p.commands
        = List.filter (fun x => !x.hiddenAttr) (pre ++ post) := by
      rw [hp, List.filter_append, List.filter_cons, List.filter_append]
      rw [hiddenAttr_markDeprecated]
      simp
    by_cases hpp : pre ++ post = []
    · rcases List.append_eq_nil.mp hpp with ⟨rfl, rfl⟩
      simp at hfil
      unfold commandUsagesWrapped
      rw [commands_setCommands]
      simp [hp, visibleCommands, hfil, String.join]
    · unfold commandUsagesWrapped
      rw [commands_setCommands]
      have h1 : p.commands.isEmpty = false := by
        rw [hp]
        rcases pre with _ | ⟨x, xs⟩ <;> simp
      have h2 : (pre ++ post).isEmpty = false := by
        simp [List.isEmpty_iff, hpp]
      rw [h1, h2]
      simp only [Bool.false_eq_true, if_false]
      have hv : visibleCommands p = visibleCommands (p.setCommands (pre ++ post)) := by
        unfold visibleCommands
        rw [commands_setCommands, hfil]
      rw [show visibleCommands (p.setCommands (pre ++ post))
            = List.filter (fun x => !x.hiddenAttr) (pre ++ post) from by
          unfold visibleCommands; rw [commands_setCommands]]
      rw [show visibleCommands p = List.filter (fun x => !x.hiddenAttr) (pre ++ post) from by
          unfold visibleCommands; rw [hfil]]

/-- Witness for C10: in a parent with a visible child and a child marked
deprecated, the usage table equals the table of the parent with the
deprecated child removed. -/
theorem markDeprecated_spec_witness :
    parentC10.commands
      = [visibleChildC10] ++ (newCommand "w" "W command." none).markDeprecated :: []
    ∧ commandUsagesWrapped parentC10 0
      = commandUsagesWrapped (parentC10.setCommands ([visibleChildC10] ++ [])) 0 := by
  refine ⟨rfl, ?_⟩
  exact markDeprecated_spec.2.2 (newCommand "w" "W command." none) parentC10
    [visibleChildC10] [] 0 rfl

/-!
## Flag-step helper lemmas
-/

theorem nodeFlagStep_flags_some (c : Command) (before : List String) (fs : FlagSet)
    (h : c.flags = some fs) (hne : before ≠ []) :
    (nodeFlagStep c before).flags = some ((ensureHelp fs).parse before) := by
  unfold nodeFlagStep
  rw [h]
  have he : before.isEmpty = false := by simp [List.isEmpty_iff, hne]
  simp only [he, Bool.false_eq_true, if_false]
  split <;> rfl

theorem nodeFlagStep_noflags (c : Command) (before : List String) (h : c.flags = none) :
    nodeFlagStep c before = ⟨none, ParseExit.none, []⟩ := by
  unfold nodeFlagStep
  rw [h]

theorem nodeFlagStep_empty (c : Command) (fs : FlagSet) (h : c.flags = some fs) :
    nodeFlagStep c [] = ⟨some fs, ParseExit.none, []⟩ := by
  unfold nodeFlagStep
  rw [h]
  rfl

theorem nodeFlagStep_help (c : Command) (before : List String) (fs : FlagSet)
    (h : c.flags = some fs) (hne : before ≠ [])
    (hh : ((ensureHelp fs).parse before).getBool "help" = some true) :
    nodeFlagStep c before
      = ⟨some ((ensureHelp fs).parse before), ParseExit.help c.name c.usage 0, []⟩ := by
  unfold nodeFlagStep
  rw [h]
  have he : before.isEmpty = false := by simp [List.isEmpty_iff, hne]
  simp only [he, Bool.false_eq_true, if_false, hh, if_true]

/-- Unfolding of the loop when no subcommand name occurs in the stream. -/
theorem parseLoopFuel_noSub (fuel : Nat) (c : Command) (args : List String)
    (hfind : findSub c.commands args = none) :
    parseLoopFuel (fuel + 1) c args
      = ⟨c.setFlags (nodeFlagStep c args).flags, (nodeFlagStep c args).exit,
          (nodeFlagStep c args).warnings⟩ := by
  conv_lhs => rw [parseLoopFuel]
  rw [hfind]

/-- Unfolding of the loop at a subcommand match when the flag step does not
exit: the segment before the match goes through the flag step, and the child
is activated and continues on the stream from the match onward. -/
theorem parseLoopFuel_descend (fuel : Nat) (c : Command) (args : List String)
    (iArg iCmd : Nat) (child : Command)
    (hfind : findSub c.commands args = some (iArg, iCmd, child))
    (hexit : (nodeFlagStep c (args.take iArg)).exit = ParseExit.none) :
    parseLoopFuel (fuel + 1) c args
      = ⟨(c.setFlags (nodeFlagStep c (args.take iArg)).flags).setCommands
            (c.commands.set iCmd
              (parseLoopFuel fuel (child.setActive true) (args.drop iArg)).tree),
          (parseLoopFuel fuel (child.setActive true) (args.drop iArg)).exit,
          (nodeFlagStep c (args.take iArg)).warnings
            ++ (parseLoopFuel fuel (child.setActive true) (args.drop iArg)).warnings⟩ := by
  conv_lhs => rw [parseLoopFuel]
  rw [hfind]
  simp only [hexit]

/-- Unfolding of the loop at a subcommand match when the flag step exits on
help: no descent. -/
theorem parseLoopFuel_helpStop (fuel : Nat) (c : Command) (args : List String)
    (iArg iCmd : Nat) (child : Command) (n u : String) (k : Nat)
    (hfind : findSub c.commands args = some (iArg, iCmd, child))
    (hexit : (nodeFlagStep c (args.take iArg)).exit = ParseExit.help n u k) :
    parseLoopFuel (fuel + 1) c args
      = ⟨c.setFlags (nodeFlagStep c (args.take iArg)).flags, ParseExit.help n u k,
          (nodeFlagStep c (args.take iArg)).warnings⟩ := by
  conv_lhs => rw [parseLoopFuel]
  rw [hfind]
  simp only [hexit]

/-- The flag set stored at the current node by one loop round is the one the
flag step produces on the before segment, in every branch of the loop. -/
theorem parseLoopFuel_tree_flags (fuel : Nat) (c : Command) (args : List String) :
    (parseLoopFuel (fuel + 1) c args).tree.flags
      = (nodeFlagStep c (beforeSegment c.commands args)).flags := by
  unfold parseLoopFuel beforeSegment
  cases hfind : findSub c.commands args with
  | none => simp [flags_setFlags]
  | some p =>
    rcases p with ⟨iArg, iCmd, child⟩
    simp only []
    split
    · rw [flags_setFlags]
    · rw [flags_setCommands, flags_setFlags]

/-!
## Claim C5 — help registration (corrected)
-/

/-- C5 (counterexample): a node created with a nil flag set keeps no flag
set across a parse pass; in particular `--help` has no effect there: no help
option is registered and no help exit is taken. -/
theorem nil_flagset_counterexample :
    (Command.parse nodeC5 ["app", "--help"]).tree.flags = none
    ∧ (Command.parse nodeC5 ["app", "--help"]).exit = ParseExit.none := by
  exact ⟨rfl, rfl⟩

/-- C5 (amended): when the visited node has a flag set and its before
segment is non-empty, the loop stores the result of parsing through
`ensureHelp` of that set; an already recognized help option is registered
once (the set is left as is), and when no flag named `help` exists the
boolean help option is registered under long form `help` and short form `h`
with default false.  When the flag set is absent nothing is created (the
node keeps no flag set and parses nothing, so such a node does not support
help), and when the before segment is empty the flag set is untouched. -/
theorem help_registration :
    (∀ (fuel : Nat) (c : Command) (args : List String) (fs : FlagSet),
        c.flags = some fs → beforeSegment c.commands args ≠ [] →
        (parseLoopFuel (fuel + 1) c args).tree.flags
            = some ((ensureHelp fs).parse (beforeSegment c.commands args)))
    ∧ (∀ fs : FlagSet, (fs.getBool "help").isSome → ensureHelp fs = fs)
    ∧ (∀ fs : FlagSet, fs.lookupLong "help" = none →
        (ensureHelp fs).getBool "help" = some false
          ∧ (fs.lookupShort "h" = none →
              (ensureHelp fs).lookupShort "h" = some ⟨"help", "h", "false", false, true⟩))
    ∧ (∀ (fuel : Nat) (c : Command) (args : List String),
        c.flags = none → (parseLoopFuel (fuel + 1) c args).tree.flags = none)
    ∧ (∀ (fuel : Nat) (c : Command) (args : List String) (fs : FlagSet),
        c.flags = some fs → beforeSegment c.commands args = [] →
        (parseLoopFuel (fuel + 1) c args).tree.flags = some fs) := by
  refine ⟨?_, ?_, ?_, ?_, ?_⟩
  · intro fuel c args fs h hne
    rw [parseLoopFuel_tree_flags, nodeFlagStep_flags_some c _ fs h hne]
  · intro fs h
    unfold ensureHelp
    rw [if_pos h]
  · intro fs h
    have hnb : (fs.getBool "help").isSome = false := by
      unfold FlagSet.getBool FlagSet.lookupLong at *
      rw [h]
      rfl
    have he : ensureHelp fs = fs.boolP "help" "h" := by
      unfold ensureHelp
      rw [hnb]
      simp
    constructor
    · rw [he]
      unfold FlagSet.getBool FlagSet.lookupLong FlagSet.boolP at *
      rw [List.find?_append, h]
      rfl
    · intro hsh
      rw [he]
      unfold FlagSet.lookupShort FlagSet.boolP at *
      rw [List.find?_append, hsh]
      rfl
  · intro fuel c args h
    rw [parseLoopFuel_tree_flags, nodeFlagStep_noflags c _ h]
  · intro fuel c args fs h hemp
    rw [parseLoopFuel_tree_flags, hemp, nodeFlagStep_empty c fs h]

/-- Witness for C5 (amended) at a concrete input: a node with an empty flag
set, stream `--verbose x`: the stored set is the parse through `ensureHelp`,
and the empty set gains the help option in both forms. -/
theorem help_registration_witness :
    nodeC4.flags = some (FlagSet.mk [])
    ∧ beforeSegment nodeC4.commands ["--verbose", "x"] ≠ []
    ∧ (parseLoopFuel 1 nodeC4 ["--verbose", "x"]).tree.flags
        = some ((ensureHelp (FlagSet.mk [])).parse
            (beforeSegment nodeC4.commands ["--verbose", "x"]))
    ∧ (FlagSet.mk []).lookupLong "help" = none
    ∧ (ensureHelp (FlagSet.mk [])).getBool "help" = some false := by
  refine ⟨rfl, by decide, ?_, rfl, ?_⟩
  · exact help_registration.1 0 nodeC4 ["--verbose", "x"] (FlagSet.mk []) rfl (by decide)
  · exact (help_registration.2.2.1 (FlagSet.mk []) rfl).1

/-!
## Claim C4 — the help exit
-/

/-- C4: when the flag-set parse of the before segment of the current node
leaves the help flag set, the loop stops at once with the help exit carrying
the usage of that node and status 0, the warnings are empty, and no descent
happens (the children are returned untouched, so nothing below is activated
and marked).  In the full pass of the spec-modelled revision, a help exit
dispatches no callback. -/
theorem help_exit :
    (∀ (fuel : Nat) (c : Command) (args : List String) (fs : FlagSet),
        c.flags = some fs →
        beforeSegment c.commands args ≠ [] →
        ((ensureHelp fs).parse (beforeSegment c.commands args)).getBool "help" = some true →
        parseLoopFuel (fuel + 1) c args
            = ⟨c.setFlags (some ((ensureHelp fs).parse (beforeSegment c.commands args))),
                ParseExit.help c.name c.usage 0, []⟩
          ∧ (parseLoopFuel (fuel + 1) c args).tree.commands = c.commands)
    ∧ (∀ (c : Command) (argv : List String) (g : Option Nat) (n u : String) (k : Nat),
        (specRun c argv g).exit = ParseExit.help n u k →
        (specRun c argv g).invoked = none) := by
  constructor
  · intro fuel c args fs hf hne hh
    have heq : parseLoopFuel (fuel + 1) c args
        = ⟨c.setFlags (some ((ensureHelp fs).parse (beforeSegment c.commands args))),
            ParseExit.help c.name c.usage 0, []⟩ := by
      unfold parseLoopFuel
      cases hfind : findSub c.commands args with
      | none =>
        have hb : beforeSegment c.commands args = args := by
          unfold beforeSegment
          rw [hfind]
        rw [hb] at hne hh ⊢
        rw [nodeFlagStep_help c args fs hf hne hh]
      | some p =>
        rcases p with ⟨iArg, iCmd, child⟩
        have hb : beforeSegment c.commands args = args.take iArg := by
          unfold beforeSegment
          rw [hfind]
        rw [hb] at hne hh ⊢
        simp only [nodeFlagStep_help c (args.take iArg) fs hf hne hh]
    refine ⟨heq, ?_⟩
    rw [heq]
    exact commands_setFlags c _
  · intro c argv g n u k
    unfold specRun
    simp only []
    intro h
    rw [h]
    simp

/-- Witness for C4 at a concrete input: a node with an empty flag set and
the stream `--help` takes the help exit with its own usage and status 0 and
keeps its children untouched. -/
theorem help_exit_witness :
    nodeC4.flags = some (FlagSet.mk [])
    ∧ beforeSegment nodeC4.commands ["--help"] ≠ []
    ∧ ((ensureHelp (FlagSet.mk [])).parse
          (beforeSegment nodeC4.commands ["--help"])).getBool "help" = some true
    ∧ (parseLoopFuel 1 nodeC4 ["--help"]
          = ⟨nodeC4.setFlags (some ((ensureHelp (FlagSet.mk [])).parse
                (beforeSegment nodeC4.commands ["--help"]))),
              ParseExit.help nodeC4.name nodeC4.usage 0, []⟩
        ∧ (parseLoopFuel 1 nodeC4 ["--help"]).tree.commands = nodeC4.commands) := by
  refine ⟨rfl, by decide, by decide, ?_⟩
  exact help_exit.1 0 nodeC4 ["--help"] (FlagSet.mk []) rfl (by decide) (by decide)

/-!
## Scan characterization lemmas
-/

theorem firstMatch_some_spec (cmds : List Command) (a : String) (j : Nat) (x : Command)
    (h : firstMatch cmds a = some (j, x)) :
    ∃ hj : j < cmds.length, x = cmds.get ⟨j, hj⟩ ∧ x.name = a
      ∧ ∀ k (hk : k < cmds.length), k < j → (cmds.get ⟨k, hk⟩).name ≠ a := by
  induction cmds generalizing j with
  | nil => simp [firstMatch] at h
  | cons c cs ih =>
    unfold firstMatch at h
    by_cases hc : (c.name == a) = true
    · rw [if_pos hc] at h
      obtain ⟨rfl, rfl⟩ : j = 0 ∧ x = c := by
        constructor <;> [exact (Prod.mk.injEq ..).mp (Option.some.inj h) |>.1.symm;
          exact (Prod.mk.injEq ..).mp (Option.some.inj h) |>.2.symm]
      refine ⟨by simp, rfl, by simpa using hc, ?_⟩
      intro k hk hk0
      omega
    · rw [if_neg hc] at h
      rcases Option.map_eq_some'.mp h with ⟨⟨j2, x2⟩, hm, he⟩
      obtain ⟨rfl, rfl⟩ : j = j2 + 1 ∧ x = x2 := by
        constructor <;> [exact ((Prod.mk.injEq ..).mp he).1.symm;
          exact ((Prod.mk.injEq ..).mp he).2.symm]
      rcases ih j2 hm with ⟨hj2, hx, hn, hmin⟩
      refine ⟨by simpa using Nat.succ_lt_succ hj2, by simpa using hx, hn, ?_⟩
      intro k hk hklt
      cases k with
      | zero =>
        intro hcontra
        exact hc (by simp only [List.get] at hcontra; simp [hcontra])
      | succ k2 =>
        have hk2 : k2 < cs.length := by simpa using hk
        simpa using hmin k2 hk2 (by omega)

theorem firstMatch_none_spec (cmds : List Command) (a : String)
    (h : firstMatch cmds a = none) : ∀ x ∈ cmds, x.name ≠ a := by
  induction cmds with
  | nil => intro x hx; cases hx
  | cons c cs ih =>
    unfold firstMatch at h
    by_cases hc : (c.name == a) = true
    · rw [if_pos hc] at h
      cases h
    · rw [if_neg hc] at h
      intro x hx
      rcases List.mem_cons.mp hx with rfl | hx2
      · intro he
        exact hc (by simp [he])
      · exact ih (by simpa using h) x hx2

theorem findSub_some_spec (cmds : List Command) (args : List String)
    (iArg iCmd : Nat) (child : Command)
    (h : findSub cmds args = some (iArg, iCmd, child)) :
    ∃ (hA : iArg < args.length) (hC : iCmd < cmds.length),
      child = cmds.get ⟨iCmd, hC⟩
      ∧ child.name = args.get ⟨iArg, hA⟩
      ∧ (∀ j (hj : j < args.length), j < iArg → ∀ x ∈ cmds, x.name ≠ args.get ⟨j, hj⟩)
      ∧ (∀ k (hk : k < cmds.length), k < iCmd →
          (cmds.get ⟨k, hk⟩).name ≠ args.get ⟨iArg, hA⟩) := by
  induction args generalizing iArg with
  | nil => simp [findSub] at h
  | cons a rest ih =>
    unfold findSub at h
    cases hm : firstMatch cmds a with
    | some p =>
      rcases p with ⟨j, x⟩
      rw [hm] at h
      simp only [Option.some.injEq, Prod.mk.injEq] at h
      obtain ⟨h1, h2, h3⟩ := h
      subst h1
      subst h2
      subst h3
      rcases firstMatch_some_spec cmds a j x hm with ⟨hj, hx, hn, hmin⟩
      refine ⟨by simp, hj, hx, by simpa using hn, ?_, ?_⟩
      · intro jj hjj hlt
        omega
      · intro k hk hklt
        simpa using hmin k hk hklt
    | none =>
      rw [hm] at h
      rcases Option.map_eq_some'.mp h with ⟨⟨iArg2, iCmd2, child2⟩, hf, he⟩
      simp only [Prod.mk.injEq] at he
      obtain ⟨h1, h2, h3⟩ := he
      subst h1
      subst h2
      subst h3
      rcases ih iArg2 hf with ⟨hA2, hC, hx, hn, htok, hmin⟩
      refine ⟨by simpa using Nat.succ_lt_succ hA2, hC, hx, by simpa using hn, ?_, ?_⟩
      · intro j hj hlt
        cases j with
        | zero => simpa using firstMatch_none_spec cmds a hm
        | succ j2 =>
          have hj2 : j2 < rest.length := by simpa using hj
          simpa using htok j2 hj2 (by omega)
      · intro k hk hklt
        simpa using hmin k hk hklt

theorem findSub_none_spec (cmds : List Command) (args : List String)
    (h : findSub cmds args = none) : ∀ t ∈ args, ∀ x ∈ cmds, x.name ≠ t := by
  induction args with
  | nil => intro t ht; cases ht
  | cons a rest ih =>
    unfold findSub at h
    cases hm : firstMatch cmds a with
    | some p => rw [hm] at h; cases h
    | none =>
      rw [hm] at h
      intro t ht
      rcases List.mem_cons.mp ht with rfl | ht2
      · exact firstMatch_none_spec cmds t hm
      · exact ih (by simpa using h) t ht2

/-!
## Claim C1 — the scan and split of the parse loop (corrected)
-/

/-- C1 (counterexample): the loop does not strip the name of the found
subcommand from the stream handed to it.  In the tree root / foo / foo
(grandchild named like its parent), the single token `foo` activates the
grandchild as well under the code, while under the claimed semantics (the
child consumes its own name token, as the spec-modelled resolver does) the
grandchild stays inactive. -/
theorem scan_split_counterexample :
    ((((Command.parse rootC1 ["app", "foo"]).tree.lookup "foo").bind
        (fun x => x.lookup "foo")).map Command.isActive = some true)
    ∧ ((((specParse rootC1 ["app", "foo"]).tree.lookup "foo").bind
        (fun x => x.lookup "foo")).map Command.isActive = some false) := by
  exact ⟨rfl, rfl⟩

/-- C1 (amended): the loop scans the stream left-to-right and splits it at
the first token equal to the name of any direct child — earliest token wins,
and among children carrying that name the lowest index wins; the tokens
strictly before the match go through the flag step of the current node, and
the tokens from the match onward, the child name included and NOT stripped,
become the stream given to that child; when no child name occurs the whole
remaining stream belongs to the current node and no descent happens. -/
theorem scan_split_spec :
    (∀ (cmds : List Command) (args : List String) (iArg iCmd : Nat) (child : Command),
        findSub cmds args = some (iArg, iCmd, child) →
        ∃ (hA : iArg < args.length) (hC : iCmd < cmds.length),
          child = cmds.get ⟨iCmd, hC⟩
          ∧ child.name = args.get ⟨iArg, hA⟩
          ∧ (∀ j (hj : j < args.length), j < iArg → ∀ x ∈ cmds, x.name ≠ args.get ⟨j, hj⟩)
          ∧ (∀ k (hk : k < cmds.length), k < iCmd →
              (cmds.get ⟨k, hk⟩).name ≠ args.get ⟨iArg, hA⟩))
    ∧ (∀ (cmds : List Command) (args : List String),
        findSub cmds args = none → ∀ t ∈ args, ∀ x ∈ cmds, x.name ≠ t)
    ∧ (∀ (fuel : Nat) (c : Command) (args : List String) (iArg iCmd : Nat) (child : Command),
        findSub c.commands args = some (iArg, iCmd, child) →
        (nodeFlagStep c (args.take iArg)).exit = ParseExit.none →
        parseLoopFuel (fuel + 1) c args
          = ⟨(c.setFlags (nodeFlagStep c (args.take iArg)).flags).setCommands
                (c.commands.set iCmd
                  (parseLoopFuel fuel (child.setActive true) (args.drop iArg)).tree),
              (parseLoopFuel fuel (child.setActive true) (args.drop iArg)).exit,
              (nodeFlagStep c (args.take iArg)).warnings
                ++ (parseLoopFuel fuel (child.setActive true) (args.drop iArg)).warnings⟩)
    ∧ (∀ (fuel : Nat) (c : Command) (args : List String),
        findSub c.commands args = none →
        parseLoopFuel (fuel + 1) c args
          = ⟨c.setFlags (nodeFlagStep c args).flags, (nodeFlagStep c args).exit,
              (nodeFlagStep c args).warnings⟩) := by
  refine ⟨findSub_some_spec, findSub_none_spec, ?_, ?_⟩
  · intro fuel c args iArg iCmd child hfind hexit
    conv_lhs => rw [parseLoopFuel]
    rw [hfind]
    simp only [hexit]
  · intro fuel c args hfind
    conv_lhs => rw [parseLoopFuel]
    rw [hfind]

/-- Searching the reverse of a list finds the element at position `i` when
it satisfies the predicate and every later element does not. -/
theorem find_rev_of_none_after {α : Type} (p : α → Bool) (l : List α) (i : Nat)
    (hi : i < l.length) (hp : p (l.get ⟨i, hi⟩) = true)
    (hafter : ∀ j (hj : j < l.length), i < j → p (l.get ⟨j, hj⟩) = false) :
    l.reverse.find? p = some (l.get ⟨i, hi⟩) := by
  induction l generalizing i with
  | nil => cases hi
  | cons x xs ih =>
    rw [List.reverse_cons, List.find?_append]
    cases i with
    | zero =>
      have hnone : xs.reverse.find? p = none := by
        rw [List.find?_eq_none]
        intro a ha
        rcases List.mem_iff_get.mp (List.mem_reverse.mp ha) with ⟨⟨n, hn⟩, rfl⟩
        have := hafter (n + 1) (by simpa using Nat.succ_lt_succ hn) (Nat.succ_pos n)
        simpa using this
      rw [hnone]
      simpa using hp
    | succ i2 =>
      have hi2 : i2 < xs.length := by simpa using hi
      have hx := ih i2 hi2 (by simpa using hp) ?_
      · rw [hx]
        simp
      · intro j hj hlt
        have := hafter (j + 1) (by simpa using Nat.succ_lt_succ hj) (by omega)
        simpa using this

/-- When the element at position `i` of the chain has a callback and every
deeper element has none, dispatch invokes that callback on the deepest
node. -/
theorem dispatch_first_from_deepest (chain : List Command) (g : Option Nat)
    (i : Nat) (hi : i < chain.length) (k : Nat)
    (hk : (chain.get ⟨i, hi⟩).callback = some k)
    (hafter : ∀ j (hj : j < chain.length), i < j →
        (chain.get ⟨j, hj⟩).callback = none) :
    dispatch chain g = chain.getLast?.map (fun d => (k, d, d.flags)) := by
  unfold dispatch
  cases hl : chain.getLast? with
  | none =>
    rw [List.getLast?_eq_none_iff] at hl
    subst hl
    cases hi
  | some d =>
    have hfind : chain.reverse.find? (fun n => n.callback.isSome)
        = some (chain.get ⟨i, hi⟩) := by
      apply find_rev_of_none_after
      · rw [hk]
        rfl
      · intro j hj hlt
        rw [hafter j hj hlt]
        rfl
    rw [hfind]
    simp only [hk]
    rfl

/-- When no element of the chain has a callback, dispatch falls back to the
global callback on the deepest node. -/
theorem dispatch_fallback (chain : List Command) (g : Option Nat)
    (hall : ∀ n ∈ chain, n.callback = none) :
    dispatch chain g = chain.getLast?.bind (fun d => g.map (fun cb => (cb, d, d.flags))) := by
  unfold dispatch
  cases hl : chain.getLast? with
  | none => rfl
  | some d =>
    have hfind : chain.reverse.find? (fun n => n.callback.isSome) = none := by
      rw [List.find?_eq_none]
      intro a ha
      rw [hall a (List.mem_reverse.mp ha)]
      simp
    rw [hfind]
    rfl

/-- The resolver returns an ancestor flag-set list of the same length as it
received: the replay rewrites the stack pointwise and never drops or adds
an ancestor. -/
theorem specResolveFuel_anc_length (fuel : Nat) :
    ∀ (c : Command) (args : List String) (anc : List FlagSet),
      (specResolveFuel fuel c args anc).anc.length = anc.length := by
  induction fuel with
  | zero => intro c args anc; rfl
  | succ f ih =>
    intro c args anc
    rw [specResolveFuel]
    split
    · rfl
    · simp only []
      generalize (if c.name = "" then args else args.tail) = args2
      cases hfind : findSub (c.setActive true).commands args2 with
      | none =>
        simp only [hfind]
        split
        · rfl
        · simp only []
          split
          · simp [List.length_map]
          · rfl
      | some p =>
        rcases p with ⟨iArg, iCmd, child⟩
        simp only [hfind]
        split
        · rfl
        · split
          · rename_i fsSelf ancRest heq
            have hl := ih child (List.drop iArg args2)
              ((ensureHelp ((c.setActive true).flags.getD (FlagSet.mk []))).parse
                  (List.take iArg args2) ::
                (if (c.setActive true).recurseArguments = true
                    ∧ List.take iArg args2 ≠ [] then
                  List.map (fun a => a.parse (List.take iArg args2)) anc
                else anc))
            rw [heq] at hl
            simp only [List.length_cons] at hl ⊢
            have hA : (if (c.setActive true).recurseArguments = true
                  ∧ List.take iArg args2 ≠ [] then
                    anc.map (fun a => a.parse (List.take iArg args2)) else anc).length
                = anc.length := by
              split
              · simp [List.length_map]
              · rfl
            rw [hA] at hl
            omega
          · simp only []
            split
            · simp [List.length_map]
            · rfl

/-- C2: in the spec-modelled resolver, every node with recursive arguments
enabled and a non-empty before segment replays that identical segment
through every ancestor flag set, nearest ancestor first, with a plain
parse: no ancestor help processing and no ancestor deprecation warning.
Part one covers a pass with no subcommand boundary in the remaining stream
(the before segment is the whole remaining stream; the node may have
children).  Part two covers a subcommand match after a non-empty before
segment: the child continues on the stream from the match onward with the
replayed ancestor stack, extended by the flag set of the current node, and
the exit and the warnings of the pass come only from the node itself and
the descent. -/
theorem recurse_replay :
    (∀ (fuel : Nat) (c : Command) (args0 args : List String) (anc : List FlagSet),
        ¬(c.name ≠ "" ∧ args0.head? ≠ some c.name) →
        args = (if c.name = "" then args0 else args0.tail) →
        c.recurseArguments = true →
        findSub c.commands args = none →
        args ≠ [] →
        ((ensureHelp (c.flags.getD (FlagSet.mk []))).parse args).getBool "help"
            ≠ some true →
        specResolveFuel (fuel + 1) c args0 anc
          = ⟨(c.setActive true).setFlags
                (some ((ensureHelp (c.flags.getD (FlagSet.mk []))).parse args)),
              anc.map (fun a => a.parse args),
              ParseExit.none,
              if c.deprecatedAttr then [deprecationWarning c.name] else [],
              [(c.setActive true).setFlags
                (some ((ensureHelp (c.flags.getD (FlagSet.mk []))).parse args))]⟩)
    ∧ (∀ (fuel : Nat) (c : Command) (args0 args : List String) (anc : List FlagSet)
          (iArg iCmd : Nat) (child : Command),
        ¬(c.name ≠ "" ∧ args0.head? ≠ some c.name) →
        args = (if c.name = "" then args0 else args0.tail) →
        c.recurseArguments = true →
        findSub c.commands args = some (iArg, iCmd, child) →
        args.take iArg ≠ [] →
        ((ensureHelp (c.flags.getD (FlagSet.mk []))).parse (args.take iArg)).getBool "help"
            ≠ some true →
        ∃ (r : SpecRes) (fsSelf : FlagSet) (ancRest : List FlagSet),
          r = specResolveFuel fuel child (args.drop iArg)
                (((ensureHelp (c.flags.getD (FlagSet.mk []))).parse (args.take iArg))
                  :: anc.map (fun a => a.parse (args.take iArg)))
          ∧ r.anc = fsSelf :: ancRest
          ∧ specResolveFuel (fuel + 1) c args0 anc
              = ⟨((c.setActive true).setFlags (some fsSelf)).setCommands
                    (c.commands.set iCmd r.tree),
                  ancRest, r.exit,
                  (if c.deprecatedAttr then [deprecationWarning c.name] else [])
                    ++ r.warnings,
                  (((c.setActive true).setFlags (some fsSelf)).setCommands
                    (c.commands.set iCmd r.tree)) :: r.chain⟩) := by
  constructor
  · intro fuel c args0 args anc hgate hargs hrec hfind hne hhelp
    subst hargs
    conv_lhs => rw [specResolveFuel]
    rw [if_neg hgate]
    simp only [commands_setActive, flags_setActive, deprecatedAttr_setActive,
      recurseArguments_setActive, name_setActive, hrec, hfind]
    rw [if_neg (by simpa using hhelp)]
    rw [if_pos (show True ∧ (if c.name = "" then args0 else args0.tail) ≠ []
      from ⟨trivial, hne⟩)]
  · intro fuel c args0 args anc iArg iCmd child hgate hargs hrec hfind hne hhelp
    subst hargs
    have hlen := specResolveFuel_anc_length fuel child
      ((if c.name = "" then args0 else args0.tail).drop iArg)
      (((ensureHelp (c.flags.getD (FlagSet.mk []))).parse
          ((if c.name = "" then args0 else args0.tail).take iArg))
        :: anc.map (fun a => a.parse ((if c.name = "" then args0 else args0.tail).take iArg)))
    cases hra : (specResolveFuel fuel child
        ((if c.name = "" then args0 else args0.tail).drop iArg)
        (((ensureHelp (c.flags.getD (FlagSet.mk []))).parse
            ((if c.name = "" then args0 else args0.tail).take iArg))
          :: anc.map (fun a =>
              a.parse ((if c.name = "" then args0 else args0.tail).take iArg)))).anc with
    | nil =>
      rw [hra] at hlen
      simp at hlen
    | cons fsSelf ancRest =>
      refine ⟨_, fsSelf, ancRest, rfl, hra, ?_⟩
      conv_lhs => rw [specResolveFuel]
      rw [if_neg hgate]
      simp only [commands_setActive, flags_setActive, deprecatedAttr_setActive,
        recurseArguments_setActive, name_setActive, hrec, hfind]
      rw [if_neg (by simpa using hhelp)]
      rw [if_pos (show True ∧ (if c.name = "" then args0 else args0.tail).take iArg ≠ []
        from ⟨trivial, hne⟩)]
      simp only [hra]

/-- Witness for C2: the explicit scenario (tree root with flag test0, foo
with flag test1, foo/bar with flag test2 and recursion enabled, stream
foo bar --test0 10 --test1 11 --test2 12 behind the program path) leaves
test0 at 10, test1 at 11 and test2 at 12; the replay theorem applied at the
internal node foo (child bar, recursion enabled) whose whole remaining
stream is its before segment, replaying it through the root flag set so
test0 reads 10; and the replay theorem applied at foo for a stream in which
a non-empty before segment precedes the subcommand boundary bar. -/
theorem recurse_replay_witness :
    ((specParse rootC2 argvC2).tree.flags.bind (fun f => f.getInt "test0") = some 10
      ∧ (((specParse rootC2 argvC2).tree.lookup "foo").bind Command.flags).bind
          (fun f => f.getInt "test1") = some 11
      ∧ ((((specParse rootC2 argvC2).tree.lookup "foo").bind
            (fun x => x.lookup "bar")).bind Command.flags).bind
          (fun f => f.getInt "test2") = some 12)
    ∧ specResolveFuel 1 fooC2R ["foo", "--test0", "10", "--test1", "11"]
          [ensureHelp fsRootC2]
        = ⟨(fooC2R.setActive true).setFlags
              (some ((ensureHelp (fooC2R.flags.getD (FlagSet.mk []))).parse
                ["--test0", "10", "--test1", "11"])),
            [ensureHelp fsRootC2].map
              (fun a => a.parse ["--test0", "10", "--test1", "11"]),
            ParseExit.none,
            if fooC2R.deprecatedAttr then [deprecationWarning fooC2R.name] else [],
            [(fooC2R.setActive true).setFlags
              (some ((ensureHelp (fooC2R.flags.getD (FlagSet.mk []))).parse
                ["--test0", "10", "--test1", "11"]))]⟩
    ∧ ((ensureHelp fsRootC2).parse ["--test0", "10", "--test1", "11"]).getInt "test0"
        = some 10
    ∧ (∃ (r : SpecRes) (fsSelf : FlagSet) (ancRest : List FlagSet),
        r = specResolveFuel 0 barC2
              ((["--test1", "11", "bar", "--test2", "12"] : List String).drop 2)
              (((ensureHelp (fooC2R.flags.getD (FlagSet.mk []))).parse
                  ((["--test1", "11", "bar", "--test2", "12"] : List String).take 2))
                :: [ensureHelp fsRootC2].map
                    (fun a => a.parse
                      ((["--test1", "11", "bar", "--test2", "12"] : List String).take 2)))
        ∧ r.anc = fsSelf :: ancRest
        ∧ specResolveFuel 1 fooC2R ["foo", "--test1", "11", "bar", "--test2", "12"]
              [ensureHelp fsRootC2]
            = ⟨((fooC2R.setActive true).setFlags (some fsSelf)).setCommands
                  (fooC2R.commands.set 0 r.tree),
                ancRest, r.exit,
                (if fooC2R.deprecatedAttr then [deprecationWarning fooC2R.name] else [])
                  ++ r.warnings,
                (((fooC2R.setActive true).setFlags (some fsSelf)).setCommands
                  (fooC2R.commands.set 0 r.tree)) :: r.chain⟩) := by
  refine ⟨⟨by decide, by decide, by decide⟩, ?_, by decide, ?_⟩
  · exact recurse_replay.1 0 fooC2R ["foo", "--test0", "10", "--test1", "11"]
      ["--test0", "10", "--test1", "11"] [ensureHelp fsRootC2]
      (by decide) rfl rfl rfl (by decide) (by decide)
  · exact recurse_replay.2 0 fooC2R ["foo", "--test1", "11", "bar", "--test2", "12"]
      ["--test1", "11", "bar", "--test2", "12"] [ensureHelp fsRootC2] 2 0 barC2
      (by decide) rfl rfl rfl (by decide) (by decide)

/-- Witness for C1 (amended) at a concrete input: in a node with subcommand
`sub` and stream `x sub y`, the match is at token index 1 and child index 0,
the flag step receives the single token before the match, and the child
receives the stream from the match onward with its name still present. -/
theorem scan_split_spec_witness :
    findSub nodeW.commands ["x", "sub", "y"] = some (1, 0, subW)
    ∧ (nodeFlagStep nodeW (["x", "sub", "y"].take 1)).exit = ParseExit.none
    ∧ parseLoopFuel 1 nodeW ["x", "sub", "y"]
        = ⟨(nodeW.setFlags (nodeFlagStep nodeW (["x", "sub", "y"].take 1)).flags).setCommands
              (nodeW.commands.set 0
                (parseLoopFuel 0 (subW.setActive true) (["x", "sub", "y"].drop 1)).tree),
            (parseLoopFuel 0 (subW.setActive true) (["x", "sub", "y"].drop 1)).exit,
            (nodeFlagStep nodeW (["x", "sub", "y"].take 1)).warnings
              ++ (parseLoopFuel 0 (subW.setActive true) (["x", "sub", "y"].drop 1)).warnings⟩ := by
  refine ⟨rfl, by decide, ?_⟩
  exact scan_split_spec.2.2.1 0 nodeW ["x", "sub", "y"] 1 0 subW rfl (by decide)

/-!
## Claim C3 — callback dispatch
-/

/-- C3: after a completed pass of the spec-modelled revision, the chain is
walked from deepest to shallowest; the first node with its own callback is
invoked, receiving the deepest node and the flag set of that deepest node;
when no chain node has a callback the global fallback is invoked the same
way; when neither exists nothing is invoked.  The invocation record is a
single optional value, so a callback runs at most once per pass. -/
theorem callback_dispatch (c : Command) (argv : List String) (g : Option Nat)
    (hexit : (specRun c argv g).exit = ParseExit.none) :
    (∀ (i : Nat) (hi : i < (specRun c argv g).chain.length) (k : Nat),
        ((specRun c argv g).chain.get ⟨i, hi⟩).callback = some k →
        (∀ j (hj : j < (specRun c argv g).chain.length), i < j →
            ((specRun c argv g).chain.get ⟨j, hj⟩).callback = none) →
        (specRun c argv g).invoked
          = (specRun c argv g).chain.getLast?.map (fun d => (k, d, d.flags)))
    ∧ ((∀ n ∈ (specRun c argv g).chain, n.callback = none) →
        (specRun c argv g).invoked
          = (specRun c argv g).chain.getLast?.bind
              (fun d => g.map (fun cb => (cb, d, d.flags))))
    ∧ ((∀ n ∈ (specRun c argv g).chain, n.callback = none) → g = none →
        (specRun c argv g).invoked = none) := by
  have hch : (specRun c argv g).chain = (specParse c argv).chain := rfl
  have hex2 : (specParse c argv).exit = ParseExit.none := hexit
  have hinv : (specRun c argv g).invoked = dispatch (specParse c argv).chain g := by
    unfold specRun
    simp only [hex2, if_pos]
  refine ⟨?_, ?_, ?_⟩
  · intro i hi k hk hafter
    rw [hinv, hch]
    rw [hch] at hi
    exact dispatch_first_from_deepest (specParse c argv).chain g i hi k hk hafter
  · intro hall
    rw [hinv, hch]
    exact dispatch_fallback (specParse c argv).chain g (by
      intro n hn
      exact hall n (by rw [hch]; exact hn))
  · intro hall hg
    rw [hinv]
    rw [dispatch_fallback (specParse c argv).chain g (by
      intro n hn
      exact hall n (by rw [hch]; exact hn))]
    rw [hg]
    cases (specParse c argv).chain.getLast? <;> rfl

/-!
## Shape lemmas and claim C9
-/

theorem shape_eval (c : Command) :
    c.shape = CommandShape.mk c.name c.usage c.description (shapeList c.commands) := by
  cases c; rfl

theorem shapeList_cons (c : Command) (cs : List Command) :
    shapeList (c :: cs) = c.shape :: shapeList cs := rfl

theorem shape_setFlags (c : Command) (f : Option FlagSet) :
    (c.setFlags f).shape = c.shape := by
  cases c; rfl

theorem shape_setActive (c : Command) (b : Bool) : (c.setActive b).shape = c.shape := by
  cases c; rfl

theorem name_setFlags (c : Command) (f : Option FlagSet) :
    (c.setFlags f).name = c.name := by
  cases c; rfl

theorem usage_setFlags (c : Command) (f : Option FlagSet) :
    (c.setFlags f).usage = c.usage := by
  cases c; rfl

theorem description_setFlags (c : Command) (f : Option FlagSet) :
    (c.setFlags f).description = c.description := by
  cases c; rfl

theorem name_setCommands (c : Command) (l : List Command) :
    (c.setCommands l).name = c.name := by
  cases c; rfl

theorem usage_setCommands (c : Command) (l : List Command) :
    (c.setCommands l).usage = c.usage := by
  cases c; rfl

theorem description_setCommands (c : Command) (l : List Command) :
    (c.setCommands l).description = c.description := by
  cases c; rfl

theorem shapeList_set (l : List Command) (i : Nat) (x : Command) (hi : i < l.length)
    (h : x.shape = (l.get ⟨i, hi⟩).shape) : shapeList (l.set i x) = shapeList l := by
  induction l generalizing i with
  | nil => cases hi
  | cons y ys ih =>
    cases i with
    | zero =>
      rw [List.set_cons_zero, shapeList_cons, shapeList_cons]
      rw [show (y :: ys).get ⟨0, hi⟩ = y from rfl] at h
      rw [h]
    | succ i2 =>
      rw [List.set_cons_succ, shapeList_cons, shapeList_cons]
      have hi2 : i2 < ys.length := by simpa using hi
      rw [ih i2 hi2 (by simpa using h)]

theorem name_eq_of_shape_eq {x y : Command} (h : x.shape = y.shape) : x.name = y.name := by
  rw [shape_eval, shape_eval] at h
  simp only [CommandShape.mk.injEq] at h
  exact h.1

theorem shapeList_eq_commands {c1 c2 : Command} (h : c1.shape = c2.shape) :
    shapeList c1.commands = shapeList c2.commands := by
  rw [shape_eval, shape_eval] at h
  simp only [CommandShape.mk.injEq] at h
  exact h.2.2.2

theorem find?_shape (nm : String) :
    ∀ l l' : List Command, shapeList l = shapeList l' →
      Option.map Command.shape (l.find? (fun x => x.name == nm))
        = Option.map Command.shape (l'.find? (fun x => x.name == nm)) := by
  intro l
  induction l with
  | nil =>
    intro l' h
    cases l' with
    | nil => rfl
    | cons y ys => rw [shapeList_cons] at h; cases h
  | cons x xs ih =>
    intro l' h
    cases l' with
    | nil => rw [shapeList_cons] at h; cases h
    | cons y ys =>
      rw [shapeList_cons, shapeList_cons] at h
      rcases List.cons.injEq .. |>.mp h with ⟨h1, h2⟩
      have hn : x.name = y.name := name_eq_of_shape_eq h1
      rw [List.find?_cons, List.find?_cons]
      by_cases hmatch : (x.name == nm) = true
      · have hmatch2 : (y.name == nm) = true := by rw [← hn]; exact hmatch
        simp only [hmatch, hmatch2]
        simp [h1]
      · have hx : (x.name == nm) = false := by simpa using hmatch
        have hy : (y.name == nm) = false := by rw [← hn]; exact hx
        simp only [hx, hy]
        exact ih ys h2

/-- Every round of the loop preserves the shape of the tree: names, usages,
descriptions and the children sequences of every node survive parsing. -/
theorem parseLoopFuel_shape (fuel : Nat) :
    ∀ (c : Command) (args : List String),
      ((parseLoopFuel fuel c args).tree).shape = c.shape := by
  induction fuel with
  | zero => intro c args; rfl
  | succ f ih =>
    intro c args
    cases hfind : findSub c.commands args with
    | none =>
      rw [parseLoopFuel_noSub f c args hfind]
      exact shape_setFlags c _
    | some p =>
      rcases p with ⟨iArg, iCmd, child⟩
      cases hexit : (nodeFlagStep c (args.take iArg)).exit with
      | help n u k =>
        rw [parseLoopFuel_helpStop f c args iArg iCmd child n u k hfind hexit]
        exact shape_setFlags c _
      | none =>
        rw [parseLoopFuel_descend f c args iArg iCmd child hfind hexit]
        rcases findSub_some_spec c.commands args iArg iCmd child hfind with
          ⟨hA, hC, hchild, _⟩
        have hsh : ((parseLoopFuel f (child.setActive true) (args.drop iArg)).tree).shape
            = (c.commands.get ⟨iCmd, hC⟩).shape := by
          rw [ih (child.setActive true) (args.drop iArg), shape_setActive, ← hchild]
        have hlist : shapeList (c.commands.set iCmd
              (parseLoopFuel f (child.setActive true) (args.drop iArg)).tree)
            = shapeList c.commands := shapeList_set _ iCmd _ hC hsh
        rw [shape_eval, shape_eval c]
        rw [name_setCommands, name_setFlags, usage_setCommands, usage_setFlags,
          description_setCommands, description_setFlags, commands_setCommands, hlist]

/-- C9: a parse pass never mutates the tree structure — the shape (every
name, usage, description and children sequence) is the same after `Parse`
as before, and `Lookup` finds, before and after the pass, nodes of equal
shape at every name. -/
theorem parse_no_tree_mutation :
    (∀ (c : Command) (args : List String), ((c.parse args).tree).shape = c.shape)
    ∧ (∀ (c : Command) (args : List String) (nm : String),
        Option.map Command.shape (((c.parse args).tree).lookup nm)
          = Option.map Command.shape (c.lookup nm)) := by
  have hmain : ∀ (c : Command) (args : List String),
      ((c.parse args).tree).shape = c.shape := by
    intro c args
    cases args with
    | nil => rfl
    | cons a0 rest =>
      unfold Command.parse
      simp only []
      by_cases hcond : (c.name ≠ "" ∧ c.name ≠ a0)
      · rw [if_pos hcond]
      · rw [if_neg hcond]
        rw [parseLoopFuel_shape, shape_setActive]
  refine ⟨hmain, ?_⟩
  intro c args nm
  have h := hmain c args
  unfold Command.lookup
  by_cases hnm : nm = ""
  · rw [if_pos hnm, if_pos hnm]
  · rw [if_neg hnm, if_neg hnm]
    exact find?_shape nm _ _ (shapeList_eq_commands h)

/-- Witness for C3: in the tree root / foo where only `foo` carries a
callback (identity 7) and a global fallback 9 is registered, the pass on
`app foo` invokes callback 7 with the deepest node of the chain. -/
theorem callback_dispatch_witness :
    (specRun rootC3 ["app", "foo"] (some 9)).exit = ParseExit.none
    ∧ (specRun rootC3 ["app", "foo"] (some 9)).chain.length = 2
    ∧ (specRun rootC3 ["app", "foo"] (some 9)).invoked
        = (specRun rootC3 ["app", "foo"] (some 9)).chain.getLast?.map
            (fun d => (7, d, d.flags)) := by
  have hlen : (specRun rootC3 ["app", "foo"] (some 9)).chain.length = 2 := by decide
  refine ⟨rfl, hlen, ?_⟩
  refine (callback_dispatch rootC3 ["app", "foo"] (some 9) rfl).1 1 (by rw [hlen]; omega)
    7 rfl ?_
  intro j hj hlt
  rw [hlen] at hj
  omega

end Cflag
